import Mathlib

/-!
Shallow embedding of the ContextPrinter repository.

The call decorator is embedded from
src/context_printer/context_printer/decorator.py.  The section stack and
the scoped printer that the decorator uses live in modules that are not
part of the sources here (context_printer.printer, context_printer.memory),
so those parts are modelled from the specification (sections 3, 4.1, 4.2
of the design document).
-/

namespace ContextPrinter

/-- Python values as they occur as arguments of a decorated call.
The function pyRepr is the default textual representation repr used by
decorator.py when it renders a call signature. -/
inductive PyVal where
  | int (n : Int)
  | str (s : String)
  | bool (b : Bool)
  | none
deriving DecidableEq

/-- Embedding of the Python builtin repr restricted to PyVal. -/
def pyRepr : PyVal → String
  | PyVal.int n => toString n
  | PyVal.str s => "\x27" ++ s ++ "\x27"
  | PyVal.bool true => "True"
  | PyVal.bool false => "False"
  | PyVal.none => "None"

/-- Embedding of the Python string join with separator ", ". -/
def joinComma : List String → String
  | [] => ""
  | [a] => a
  | a :: b :: rest => a ++ ", " ++ joinComma (b :: rest)

/-- Lexicographic order on code point lists, the order Python uses to
compare strings. -/
def charListLe : List Char → List Char → Bool
  | [], _ => true
  | _ :: _, [] => false
  | a :: as, b :: bs =>
      if a.toNat < b.toNat then true
      else if b.toNat < a.toNat then false
      else charListLe as bs

/-- Lexicographic order on strings by code points. -/
def strLe (a b : String) : Bool :=
  charListLe a.data b.data

/-- Insertion step for sorting keyword arguments by key. -/
def insertByKey (p : String × PyVal) : List (String × PyVal) → List (String × PyVal)
  | [] => [p]
  | q :: rest => if strLe p.1 q.1 then p :: q :: rest else q :: insertByKey p rest

/-- Embedding of sorted(kwargs): the keyword dictionary is modelled as an
association list with distinct keys, sorted lexicographically by key. -/
def sortByKey : List (String × PyVal) → List (String × PyVal)
  | [] => []
  | p :: rest => insertByKey p (sortByKey rest)

/-- Rendering of one keyword argument, the Python f-string k=repr(v). -/
def kwItem (kv : String × PyVal) : String :=
  kv.1 ++ "=" ++ pyRepr kv.2

/-- Embedding of the signature construction in decorated (decorator.py,
lines 60 to 65): the keyword part joins key=repr(value) over the sorted
keys, the positional part joins repr(arg) in call order, and the two parts
are concatenated with ", " exactly when both are nonempty strings. -/
def signatureOf (args : List PyVal) (kwargs : List (String × PyVal)) : String :=
  let signature_kwargs := joinComma ((sortByKey kwargs).map kwItem)
  let signature := joinComma (args.map pyRepr)
  if signature_kwargs ≠ "" then
    (if signature ≠ "" then signature ++ ", " else signature) ++ signature_kwargs
  else
    signature

/-- Embedding of the message construction in decorated (decorator.py,
lines 66 to 70): the label is "Call name(signature)", then " from file"
when the file was resolved at decoration time, then " lN" when both the
file and the line number were resolved. -/
def buildMessage (name : String) (file : Option String) (lineno : Option Nat)
    (args : List PyVal) (kwargs : List (String × PyVal)) : String :=
  let message := "Call " ++ name ++ "(" ++ signatureOf args kwargs ++ ")"
  let message2 := match file with
    | Option.some f => message ++ " from " ++ f
    | Option.none => message
  match lineno, file with
  | Option.some l, Option.some _ => message2 ++ " l" ++ toString l
  | _, _ => message2

/-- Suffix appended to the base label, as a function of the data captured
at decoration time. -/
def suffixStr : Option String → Option Nat → String
  | Option.some f, Option.some l => " from " ++ f ++ " l" ++ toString l
  | Option.some f, Option.none => " from " ++ f
  | Option.none, _ => ""

/-- Data captured once by decorate and closed over by the wrapper:
the function name, the resolved source file (Option.none when the file
does not exist on disk) and the line number taken from the frame two
levels above decorate (Option.none when that frame lookup failed). -/
structure Decorated where
  name : String
  file : Option String
  lineno : Option Nat
deriving DecidableEq

/-- Embedding of decorate (decorator.py, lines 50 to 57).  The argument
getfile is the outcome of inspect.getfile on the wrapped callable: it is
Except.error for a callable with no associated source file (for example a
builtin), in which case the exception escapes decorate itself.  The
argument pathExists models os.path.exists, and frameLineno models the
inspect.currentframe chain, already collapsed to Option.none when the
AttributeError branch was taken. -/
def decorate (name : String) (getfile : Except Unit String)
    (pathExists : String → Bool) (frameLineno : Option Nat) :
    Except Unit Decorated :=
  match getfile with
  | Except.error e => Except.error e
  | Except.ok f =>
      Except.ok
        { name := name
          file := if pathExists f then Option.some f else Option.none
          lineno := frameLineno }

/-- Modelled from the spec (section 3): one active section record, holding
its depth, its color identifier and the timestamp captured at push. -/
structure SectionRecord where
  depth : Nat
  color : Option Nat
  start_time : Nat
deriving DecidableEq

/-- Modelled from the spec (sections 3 and 4.1): the process wide section
stack, an ordered sequence of SectionRecord mutated only at the tail. -/
structure SectionStack where
  entries : List SectionRecord
deriving DecidableEq

/-- Modelled from the spec (section 7): the error raised by pop or by
exit_last_section when no section is open. -/
inductive StackError where
  | stackUnderflow
deriving DecidableEq

/-- The empty stack, the state at process start. -/
def SectionStack.empty : SectionStack := ⟨[]⟩

/-- Modelled from the spec (section 4.1): current_depth is the length of
the stack. -/
def SectionStack.current_depth (s : SectionStack) : Nat :=
  s.entries.length

/-- Modelled from the spec (section 4.1): push appends a record whose
depth is the current length, with the given color and the current time,
and returns the assigned depth.  It always succeeds. -/
def SectionStack.push (s : SectionStack) (color : Option Nat) (now : Nat) :
    SectionStack × Nat :=
  (⟨s.entries ++ [⟨s.entries.length, color, now⟩]⟩, s.entries.length)

/-- Modelled from the spec (section 4.1): pop removes the last record and
fails with StackUnderflowError on an empty stack. -/
def SectionStack.pop (s : SectionStack) : Except StackError SectionStack :=
  if s.entries.isEmpty then Except.error StackError.stackUnderflow
  else Except.ok ⟨s.entries.dropLast⟩

/-- Modelled from the spec (section 4.1): reset clears all records
unconditionally. -/
def SectionStack.reset (s : SectionStack) : SectionStack :=
  let _ := s
  ⟨[]⟩

/-- Modelled from the spec (section 4.2): the module level convenience
exit_last_section closes the innermost open section and fails with
StackUnderflowError when nothing is open. -/
def exit_last_section (s : SectionStack) : Except StackError SectionStack :=
  s.pop

/-- Observable events of one decorated call: the scope is entered and the
label printed, further lines are printed inside the scope, and the scope
is closed. -/
inductive Event where
  | enter (label : String)
  | line (text : String)
  | close
deriving DecidableEq

/-- Recognizer for the scope closing event. -/
def isClose : Event → Bool
  | Event.close => true
  | _ => false

/-- Embedding of one invocation of the wrapper decorated (decorator.py,
lines 59 to 75).  The wrapped callable is modelled as a function from the
argument lists to Except (Except.error is a raised exception).  The with
statement around Printer is modelled from the spec (section 4.2): enter
pushes one record and prints the label, exit pops on every exit path; the
string elapsed stands for the output of the external time formatter used
by the elapsed_time call.  The result is the returned or raised value,
the final stack and the list of observable events. -/
def decoratedCall {ε β : Type} (d : Decorated)
    (func : List PyVal → List (String × PyVal) → Except ε β)
    (args : List PyVal) (kwargs : List (String × PyVal))
    (s : SectionStack) (now : Nat) (elapsed : String) :
    Except StackError (Except ε β × SectionStack × List Event) :=
  let message := buildMessage d.name d.file d.lineno args kwargs
  let s1 := (s.push Option.none now).1
  match func args kwargs with
  | Except.ok res =>
      match s1.pop with
      | Except.ok s2 =>
          Except.ok (Except.ok res, s2,
            [Event.enter message,
             Event.line ("done, total elapsed time: " ++ elapsed),
             Event.close])
      | Except.error e => Except.error e
  | Except.error exc =>
      match s1.pop with
      | Except.ok s2 =>
          Except.ok (Except.error exc, s2, [Event.enter message, Event.close])
      | Except.error e => Except.error e

/-- One primitive mutation of the section stack. -/
inductive StackOp where
  | push (color : Option Nat) (now : Nat)
  | pop
deriving DecidableEq

/-- Runs a sequence of stack operations, stopping at the first failure. -/
def runOps (s : SectionStack) : List StackOp → Except StackError SectionStack
  | [] => Except.ok s
  | StackOp.push c t :: rest => runOps (s.push c t).1 rest
  | StackOp.pop :: rest =>
      match s.pop with
      | Except.ok s2 => runOps s2 rest
      | Except.error e => Except.error e

/-- Number of push operations in a sequence. -/
def pushCount : List StackOp → Nat
  | [] => 0
  | StackOp.push _ _ :: rest => pushCount rest + 1
  | StackOp.pop :: rest => pushCount rest

/-- Number of pop operations in a sequence. -/
def popCount : List StackOp → Nat
  | [] => 0
  | StackOp.push _ _ :: rest => popCount rest
  | StackOp.pop :: rest => popCount rest + 1

/-- The stack invariant of the spec (section 3): the record stored at
position i carries depth i. -/
def WellFormed (s : SectionStack) : Prop :=
  ∀ i (h : i < s.entries.length), s.entries[i].depth = i

/-- Following the words of the claim about call sites: a label suffixed
with the source file path and the line number of the call site of the
current invocation.  This definition follows the claim, not the code, and
is compared against buildMessage. -/
def buildMessageClaimC4 (name : String) (file : Option String)
    (callSiteLine : Nat) (args : List PyVal)
    (kwargs : List (String × PyVal)) : String :=
  match file with
  | Option.some f =>
      "Call " ++ name ++ "(" ++ signatureOf args kwargs ++ ")" ++ " from " ++ f
        ++ " l" ++ toString callSiteLine
  | Option.none => "Call " ++ name ++ "(" ++ signatureOf args kwargs ++ ")"

/-! Helper lemmas. -/

lemma toDigitsCore_len_ge (b f : Nat) : ∀ (n : Nat) (l : List Char),
    l.length ≤ (Nat.toDigitsCore b f n l).length := by
  induction f with
  | zero => intro n l; simp [Nat.toDigitsCore]
  | succ f ih =>
    intro n l
    simp only [Nat.toDigitsCore]
    by_cases h : n / b = 0
    · simp [h]
    · simp only [h, if_false]
      calc l.length ≤ (Nat.digitChar (n % b) :: l).length := by simp
        _ ≤ _ := ih _ _

lemma natRepr_len_pos (n : Nat) : 1 ≤ (Nat.repr n).length := by
  show 1 ≤ (Nat.toDigits 10 n).asString.length
  rw [String.length]
  simp only [List.asString]
  show 1 ≤ (Nat.toDigits 10 n).length
  unfold Nat.toDigits Nat.toDigitsCore
  by_cases h : n / 10 = 0
  · simp [h]
  · simp only [h, if_false]
    calc 1 ≤ ([Nat.digitChar (n % 10)] : List Char).length := by simp
      _ ≤ _ := toDigitsCore_len_ge _ _ _ _

lemma natRepr_ne_empty (n : Nat) : Nat.repr n ≠ "" := by
  intro h
  have hp := natRepr_len_pos n
  rw [h] at hp
  simp [String.length] at hp

lemma intRepr_ne_empty (n : Int) : Int.repr n ≠ "" := by
  cases n with
  | ofNat m => exact natRepr_ne_empty m
  | negSucc m =>
    intro h
    have h2 : ("-" ++ Nat.repr (m + 1)) = "" := h
    have h3 := congrArg String.length h2
    rw [String.length_append] at h3
    have h4 := natRepr_len_pos (m + 1)
    have h5 : ("" : String).length = 0 := rfl
    have h6 : ("-" : String).length = 1 := rfl
    omega

lemma string_ne_empty_of_length_pos {s : String} (h : 0 < s.length) : s ≠ "" := by
  intro he
  rw [he] at h
  exact absurd h (by decide)

lemma pyRepr_ne_empty (v : PyVal) : pyRepr v ≠ "" := by
  cases v with
  | int n => exact intRepr_ne_empty n
  | str s =>
    apply string_ne_empty_of_length_pos
    show 0 < ("\x27" ++ s ++ "\x27").length
    rw [String.length_append, String.length_append]
    have h1 : ("\x27" : String).length = 1 := rfl
    omega
  | bool b => cases b <;> decide
  | none => decide

lemma kwItem_ne_empty (kv : String × PyVal) : kwItem kv ≠ "" := by
  apply string_ne_empty_of_length_pos
  show 0 < (kv.1 ++ "=" ++ pyRepr kv.2).length
  rw [String.length_append, String.length_append]
  have h : ("=" : String).length = 1 := rfl
  omega

lemma joinComma_ne_empty : ∀ (l : List String), l ≠ [] →
    (∀ x ∈ l, x ≠ "") → joinComma l ≠ ""
  | [], h, _ => absurd rfl h
  | [a], _, hx => by
      simpa [joinComma] using hx a (by simp)
  | a :: b :: rest, _, _ => by
      show a ++ ", " ++ joinComma (b :: rest) ≠ ""
      apply string_ne_empty_of_length_pos
      rw [String.length_append, String.length_append]
      have h : (", " : String).length = 2 := rfl
      omega

lemma joinComma_append : ∀ (l1 l2 : List String), l1 ≠ [] → l2 ≠ [] →
    joinComma (l1 ++ l2) = joinComma l1 ++ ", " ++ joinComma l2
  | [], _, h1, _ => absurd rfl h1
  | [a], l2, _, h2 => by
      match l2, h2 with
      | b :: rest, _ =>
        show a ++ ", " ++ joinComma (b :: rest) = a ++ ", " ++ joinComma (b :: rest)
        rfl
  | a :: c :: t, l2, _, h2 => by
      have ih := joinComma_append (c :: t) l2 (by simp) h2
      show a ++ ", " ++ joinComma ((c :: t) ++ l2)
        = (a ++ ", " ++ joinComma (c :: t)) ++ ", " ++ joinComma l2
      rw [ih]
      simp [String.append_assoc]

lemma joinComma_nil : joinComma [] = "" := rfl

lemma signatureOf_eq (args : List PyVal) (kwargs : List (String × PyVal)) :
    signatureOf args kwargs
      = joinComma (args.map pyRepr ++ (sortByKey kwargs).map kwItem) := by
  unfold signatureOf
  dsimp only
  have hKne : ∀ x ∈ (sortByKey kwargs).map kwItem, x ≠ "" := by
    intro x hx
    rcases List.mem_map.mp hx with ⟨kv, _, rfl⟩
    exact kwItem_ne_empty kv
  have hAne : ∀ x ∈ args.map pyRepr, x ≠ "" := by
    intro x hx
    rcases List.mem_map.mp hx with ⟨v, _, rfl⟩
    exact pyRepr_ne_empty v
  by_cases hk : (sortByKey kwargs).map kwItem = []
  · rw [hk, joinComma_nil, List.append_nil]
    simp
  · have hskne := joinComma_ne_empty _ hk hKne
    rw [if_pos hskne]
    by_cases ha : args.map pyRepr = []
    · rw [ha]
      rw [joinComma_nil]
      rw [if_neg (by simp)]
      rw [List.nil_append]
      exact String.empty_append _
    · have hsane := joinComma_ne_empty _ ha hAne
      rw [if_pos hsane]
      rw [joinComma_append _ _ ha hk]

lemma buildMessage_eq (name : String) (file : Option String) (lineno : Option Nat)
    (args : List PyVal) (kwargs : List (String × PyVal)) :
    buildMessage name file lineno args kwargs
      = ("Call " ++ name ++ "(" ++ signatureOf args kwargs ++ ")")
          ++ suffixStr file lineno := by
  unfold buildMessage suffixStr
  cases file with
  | none =>
    cases lineno <;> simp
  | some f =>
    cases lineno with
    | none => simp only [String.append_assoc]
    | some l => dsimp only; simp only [String.append_assoc]

lemma pop_push (s : SectionStack) (c : Option Nat) (t : Nat) :
    (s.push c t).1.pop = Except.ok s := by
  unfold SectionStack.push SectionStack.pop
  dsimp only
  rw [if_neg (by simp)]
  rw [List.dropLast_concat]

lemma push_wf (s : SectionStack) (c : Option Nat) (t : Nat)
    (hw : WellFormed s) : WellFormed (s.push c t).1 := by
  intro i h
  unfold SectionStack.push at h ⊢
  dsimp only at h ⊢
  rw [List.length_append, List.length_singleton] at h
  rcases Nat.lt_or_ge i s.entries.length with hi | hi
  · rw [List.getElem_append_left hi]
    exact hw i hi
  · have hieq : i = s.entries.length := by omega
    subst hieq
    rw [List.getElem_concat_length]
    rfl

lemma dropLast_wf (s : SectionStack) (hw : WellFormed s) :
    WellFormed ⟨s.entries.dropLast⟩ := by
  intro i h
  dsimp only at h ⊢
  rw [List.getElem_dropLast]
  apply hw

lemma runOps_spec : ∀ (ops : List StackOp) (s s2 : SectionStack),
    WellFormed s → runOps s ops = Except.ok s2 →
    WellFormed s2 ∧
      (s2.current_depth : Int)
        = (s.current_depth : Int) + pushCount ops - popCount ops := by
  intro ops
  induction ops with
  | nil =>
    intro s s2 hw h
    cases h
    refine ⟨hw, by simp [pushCount, popCount]⟩
  | cons op rest ih =>
    intro s s2 hw h
    cases op with
    | push c t =>
      have := ih (s.push c t).1 s2 (push_wf s c t hw) h
      refine ⟨this.1, ?_⟩
      have hd : ((s.push c t).1.current_depth : Int) = s.current_depth + 1 := by
        unfold SectionStack.push SectionStack.current_depth
        simp
      rw [this.2, hd]
      simp [pushCount, popCount]
      ring
    | pop =>
      unfold runOps at h
      unfold SectionStack.pop at h
      by_cases he : s.entries.isEmpty
      · rw [if_pos he] at h
        exact absurd h (by simp)
      · rw [if_neg he] at h
        dsimp only at h
        have hne : s.entries ≠ [] := by
          intro hnil
          apply he
          rw [hnil]
          rfl
        have hlen : 0 < s.entries.length := List.length_pos.mpr hne
        have := ih ⟨s.entries.dropLast⟩ s2 (dropLast_wf s hw) h
        refine ⟨this.1, ?_⟩
        have hd : ((SectionStack.mk s.entries.dropLast).current_depth : Int)
            = s.current_depth - 1 := by
          unfold SectionStack.current_depth
          dsimp only
          rw [List.length_dropLast]
          omega
        rw [this.2, hd]
        simp [pushCount, popCount]
        ring

lemma wellFormed_empty : WellFormed SectionStack.empty := by
  intro i h
  exact absurd h (by simp [SectionStack.empty])

/-! Claim theorems. -/

/-- C1: every label of a decorated invocation has the form
Call name(signature) followed by the decoration suffix, where signature
joins with ", " the positional arguments in call order, each rendered by
repr, followed by the keyword arguments sorted by key in key=value form;
in particular f(0, 0) yields the label Call f(0, 0), f(0, y=1) yields
Call f(0, y=1), and f(x=1, y=1) yields Call f(x=1, y=1). -/
theorem decorator_signature_rendering :
    (∀ (name : String) (file : Option String) (lineno : Option Nat)
        (args : List PyVal) (kwargs : List (String × PyVal)),
      buildMessage name file lineno args kwargs
        = "Call " ++ name ++ "("
            ++ joinComma (args.map pyRepr ++ (sortByKey kwargs).map kwItem)
            ++ ")" ++ suffixStr file lineno)
  ∧ buildMessage "f" Option.none Option.none [PyVal.int 0, PyVal.int 0] []
      = "Call f(0, 0)"
  ∧ buildMessage "f" Option.none Option.none [PyVal.int 0] [("y", PyVal.int 1)]
      = "Call f(0, y=1)"
  ∧ buildMessage "f" Option.none Option.none []
      [("x", PyVal.int 1), ("y", PyVal.int 1)] = "Call f(x=1, y=1)"
  ∧ buildMessage "f" Option.none Option.none []
      [("y", PyVal.int 1), ("x", PyVal.int 2)] = "Call f(x=2, y=1)" := by
  refine ⟨?_, rfl, by decide, by decide, by decide⟩
  intro name file lineno args kwargs
  rw [buildMessage_eq, signatureOf_eq]

/-- C2: when the wrapped callable returns normally, the wrapper prints the
done line with the elapsed time inside the scope, before the scope closes,
and returns the value; when the wrapped callable raises, no done line is
printed, the scope is still closed, and the original exception propagates
unchanged. -/
theorem decorator_done_line_and_propagation {ε β : Type} (d : Decorated)
    (func : List PyVal → List (String × PyVal) → Except ε β)
    (args : List PyVal) (kwargs : List (String × PyVal))
    (s : SectionStack) (now : Nat) (elapsed : String) :
    (∀ v, func args kwargs = Except.ok v →
      decoratedCall d func args kwargs s now elapsed
        = Except.ok (Except.ok v, s,
            [Event.enter (buildMessage d.name d.file d.lineno args kwargs),
             Event.line ("done, total elapsed time: " ++ elapsed),
             Event.close]))
  ∧ (∀ e, func args kwargs = Except.error e →
      decoratedCall d func args kwargs s now elapsed
        = Except.ok (Except.error e, s,
            [Event.enter (buildMessage d.name d.file d.lineno args kwargs),
             Event.close])) := by
  constructor
  · intro v hv
    unfold decoratedCall
    dsimp only
    rw [hv, pop_push]
  · intro e he
    unfold decoratedCall
    dsimp only
    rw [he, pop_push]

/-- Witness for C2 at a concrete function, a returning call and a raising
call. -/
theorem decorator_done_line_and_propagation_witness :
    decoratedCall ⟨"f", Option.none, Option.none⟩
        (fun _ _ => (Except.ok 5 : Except Unit Nat)) [] []
        SectionStack.empty 0 "1 us"
      = Except.ok (Except.ok 5, SectionStack.empty,
          [Event.enter "Call f()",
           Event.line "done, total elapsed time: 1 us",
           Event.close])
  ∧ decoratedCall ⟨"f", Option.none, Option.none⟩
        (fun _ _ => (Except.error () : Except Unit Nat)) [] []
        SectionStack.empty 0 "1 us"
      = Except.ok (Except.error (), SectionStack.empty,
          [Event.enter "Call f()", Event.close]) :=
  ⟨(decorator_done_line_and_propagation ⟨"f", Option.none, Option.none⟩
      (fun _ _ => (Except.ok 5 : Except Unit Nat)) [] []
      SectionStack.empty 0 "1 us").1 5 rfl,
   (decorator_done_line_and_propagation ⟨"f", Option.none, Option.none⟩
      (fun _ _ => (Except.error () : Except Unit Nat)) [] []
      SectionStack.empty 0 "1 us").2 () rfl⟩

/-- C3: whether the wrapped callable returns or raises, the stack depth
after a decorated call equals the depth before it, and the scope is
closed exactly once. -/
theorem decorator_stack_depth_preserved {ε β : Type} (d : Decorated)
    (func : List PyVal → List (String × PyVal) → Except ε β)
    (args : List PyVal) (kwargs : List (String × PyVal))
    (s : SectionStack) (now : Nat) (elapsed : String)
    (res : Except ε β) (s2 : SectionStack) (trace : List Event)
    (h : decoratedCall d func args kwargs s now elapsed
          = Except.ok (res, s2, trace)) :
    s2.current_depth = s.current_depth
  ∧ (trace.filter isClose).length = 1 := by
  unfold decoratedCall at h
  dsimp only at h
  cases hf : func args kwargs with
  | ok v =>
    rw [hf, pop_push] at h
    dsimp only at h
    simp only [Except.ok.injEq, Prod.mk.injEq] at h
    obtain ⟨-, h2, h3⟩ := h
    subst h2
    subst h3
    exact ⟨rfl, rfl⟩
  | error e =>
    rw [hf, pop_push] at h
    dsimp only at h
    simp only [Except.ok.injEq, Prod.mk.injEq] at h
    obtain ⟨-, h2, h3⟩ := h
    subst h2
    subst h3
    exact ⟨rfl, rfl⟩

/-- Witness for C3 at a concrete decorated call. -/
theorem decorator_stack_depth_preserved_witness :
    SectionStack.empty.current_depth = SectionStack.empty.current_depth
  ∧ (([Event.enter "Call f()",
       Event.line "done, total elapsed time: 1 us",
       Event.close].filter isClose).length = 1) :=
  decorator_stack_depth_preserved ⟨"f", Option.none, Option.none⟩
    (fun _ _ => (Except.ok 5 : Except Unit Nat)) [] []
    SectionStack.empty 0 "1 us" (Except.ok 5) SectionStack.empty
    [Event.enter "Call f()", Event.line "done, total elapsed time: 1 us",
     Event.close] rfl

/-- C4 counterexample: the line number in the label is the one captured at
decoration time (here 10), not the line number of the call site of the
invocation (here 99), so the claim as stated fails on this input. -/
theorem decorator_call_site_lineno_counterexample :
    buildMessage "f" (Option.some "ex.py") (Option.some 10) [] []
      = "Call f() from ex.py l10"
  ∧ buildMessageClaimC4 "f" (Option.some "ex.py") 99 [] []
      = "Call f() from ex.py l99"
  ∧ buildMessage "f" (Option.some "ex.py") (Option.some 10) [] []
      ≠ buildMessageClaimC4 "f" (Option.some "ex.py") 99 [] [] :=
  ⟨rfl, rfl, by decide⟩

/-- C4 amended: the label is suffixed with the source file of the
decorated function and the line number captured at decoration time, when
both were resolved; when the file was not found on disk the whole suffix
is omitted; and decoration with a resolvable source file never fails,
whatever the disk lookup and the frame lookup returned. -/
theorem decorator_label_suffix_best_effort (name gf f : String)
    (pe : String → Bool) (ln : Option Nat) (l : Nat)
    (args : List PyVal) (kwargs : List (String × PyVal)) :
    buildMessage name (Option.some f) (Option.some l) args kwargs
      = ("Call " ++ name ++ "(" ++ signatureOf args kwargs ++ ")")
          ++ " from " ++ f ++ " l" ++ toString l
  ∧ buildMessage name Option.none ln args kwargs
      = "Call " ++ name ++ "(" ++ signatureOf args kwargs ++ ")"
  ∧ ∃ d, decorate name (Except.ok gf) pe ln = Except.ok d := by
  refine ⟨?_, ?_, ⟨_, rfl⟩⟩
  · rw [buildMessage_eq]
    unfold suffixStr
    simp only [String.append_assoc]
  · rw [buildMessage_eq]
    cases ln <;> simp [suffixStr]

/-- C5: the wrapper forwards the positional and keyword arguments
unchanged to the wrapped callable and yields exactly the value the
callable returns. -/
theorem decorate_transparent_forwarding {ε β : Type} (d : Decorated)
    (func : List PyVal → List (String × PyVal) → Except ε β)
    (args : List PyVal) (kwargs : List (String × PyVal))
    (s : SectionStack) (now : Nat) (elapsed : String) :
    ∃ trace, decoratedCall d func args kwargs s now elapsed
      = Except.ok (func args kwargs, s, trace) := by
  cases hf : func args kwargs with
  | ok v =>
    refine ⟨[Event.enter (buildMessage d.name d.file d.lineno args kwargs),
             Event.line ("done, total elapsed time: " ++ elapsed),
             Event.close], ?_⟩
    unfold decoratedCall
    dsimp only
    rw [hf, pop_push]
  | error e =>
    refine ⟨[Event.enter (buildMessage d.name d.file d.lineno args kwargs),
             Event.close], ?_⟩
    unfold decoratedCall
    dsimp only
    rw [hf, pop_push]

/-- C6: pop on the empty section stack fails with StackUnderflowError,
and exit_last_section with no open section fails the same way. -/
theorem pop_empty_stack_underflow :
    SectionStack.empty.pop = Except.error StackError.stackUnderflow
  ∧ exit_last_section SectionStack.empty
      = Except.error StackError.stackUnderflow :=
  ⟨rfl, rfl⟩

/-- C7: after any successful sequence of push and pop operations from the
empty stack, the record at position i carries depth i, the current depth
equals the net count of unmatched pushes, and the depth is zero right
after reset. -/
theorem section_stack_invariant (ops : List StackOp) (s2 : SectionStack)
    (h : runOps SectionStack.empty ops = Except.ok s2) :
    WellFormed s2
  ∧ (s2.current_depth : Int) = (pushCount ops : Int) - popCount ops
  ∧ s2.reset.current_depth = 0 := by
  have hs := runOps_spec ops SectionStack.empty s2 wellFormed_empty h
  refine ⟨hs.1, ?_, rfl⟩
  have h0 : (SectionStack.empty.current_depth : Int) = 0 := rfl
  rw [hs.2, h0]
  ring

/-- Witness for C7 on the sequence push, push, pop. -/
theorem section_stack_invariant_witness :
    WellFormed ⟨[⟨0, Option.none, 0⟩]⟩
  ∧ ((SectionStack.mk [⟨0, Option.none, 0⟩]).current_depth : Int)
      = (pushCount [StackOp.push Option.none 0,
          StackOp.push (Option.some 1) 1, StackOp.pop] : Int)
        - popCount [StackOp.push Option.none 0,
            StackOp.push (Option.some 1) 1, StackOp.pop]
  ∧ (SectionStack.mk [⟨0, Option.none, 0⟩]).reset.current_depth = 0 :=
  section_stack_invariant
    [StackOp.push Option.none 0, StackOp.push (Option.some 1) 1, StackOp.pop]
    ⟨[⟨0, Option.none, 0⟩]⟩ rfl

/-- C8: the file and the line number shown in the label are fixed at
decoration time, so the suffix of the label is the same for every
invocation of the decorated function, whatever its arguments; the wrapper
takes no call site information at all. -/
theorem decorator_file_line_fixed_at_decoration
    (name gf : String) (pe : String → Bool) (ln : Option Nat) (d : Decorated)
    (h : decorate name (Except.ok gf) pe ln = Except.ok d)
    (args1 : List PyVal) (kwargs1 : List (String × PyVal))
    (args2 : List PyVal) (kwargs2 : List (String × PyVal)) :
    ∃ suffix,
      buildMessage d.name d.file d.lineno args1 kwargs1
        = ("Call " ++ name ++ "(" ++ signatureOf args1 kwargs1 ++ ")")
            ++ suffix
    ∧ buildMessage d.name d.file d.lineno args2 kwargs2
        = ("Call " ++ name ++ "(" ++ signatureOf args2 kwargs2 ++ ")")
            ++ suffix
    ∧ d.file = (if pe gf then Option.some gf else Option.none)
    ∧ d.lineno = ln := by
  have hd : d = ⟨name, if pe gf then Option.some gf else Option.none, ln⟩ := by
    unfold decorate at h
    injection h with h1
    exact h1.symm
  subst hd
  exact ⟨suffixStr (if pe gf then Option.some gf else Option.none) ln,
    buildMessage_eq _ _ _ _ _, buildMessage_eq _ _ _ _ _, rfl, rfl⟩

/-- Witness for C8 at a concrete decoration and two invocations with
different arguments. -/
theorem decorator_file_line_fixed_at_decoration_witness :
    ∃ suffix,
      buildMessage "f" (Option.some "a.py") (Option.some 3) [PyVal.int 1] []
        = ("Call " ++ "f" ++ "(" ++ signatureOf [PyVal.int 1] [] ++ ")")
            ++ suffix
    ∧ buildMessage "f" (Option.some "a.py") (Option.some 3) [PyVal.int 2] []
        = ("Call " ++ "f" ++ "(" ++ signatureOf [PyVal.int 2] [] ++ ")")
            ++ suffix
    ∧ (Option.some "a.py" : Option String)
        = (if (fun _ => true : String → Bool) "a.py" then Option.some "a.py"
           else Option.none)
    ∧ (Option.some 3 : Option Nat) = Option.some 3 :=
  decorator_file_line_fixed_at_decoration "f" "a.py" (fun _ => true)
    (Option.some 3) ⟨"f", Option.some "a.py", Option.some 3⟩ rfl
    [PyVal.int 1] [] [PyVal.int 2] []

/-- C9: the line number suffix appears only together with the file
suffix: with no resolved file the label is identical to the label with no
line number either, with a file but no line number only the file suffix
appears, and a file that is not on disk is silently dropped at decoration
time without error. -/
theorem lineno_suffix_requires_file_suffix (name : String) (ln : Option Nat)
    (args : List PyVal) (kwargs : List (String × PyVal)) :
    buildMessage name Option.none ln args kwargs
      = buildMessage name Option.none Option.none args kwargs
  ∧ (∀ f, buildMessage name (Option.some f) Option.none args kwargs
      = ("Call " ++ name ++ "(" ++ signatureOf args kwargs ++ ")")
          ++ " from " ++ f)
  ∧ (∀ gf, decorate name (Except.ok gf) (fun _ => false) ln
      = Except.ok ⟨name, Option.none, ln⟩) := by
  refine ⟨?_, ?_, fun gf => rfl⟩
  · rw [buildMessage_eq, buildMessage_eq]
    cases ln <;> rfl
  · intro f
    rw [buildMessage_eq]
    unfold suffixStr
    simp only [String.append_assoc]

/-- C10: decorate inspects the source file of the wrapped callable at
decoration time, so on a callable with no source file, where getfile
raises, decorate itself fails before any invocation of the wrapper. -/
theorem decorate_builtin_fails_at_decoration (name : String)
    (pe : String → Bool) (ln : Option Nat) :
    decorate name (Except.error ()) pe ln = Except.error () :=
  rfl

end ContextPrinter
